import Mathlib

/-!
# Verification of the staged menu-extraction pipeline

A shallow embedding, in Lean 4, of the core of the `backend` package:

* the per-unit retry loop shared (up to its retry budget) by
  `Phase1Extractor.extract_page`, `Phase2Extractor.extract_category`,
  `Phase3Extractor.extract_category_base` and
  `Phase4Extractor.extract_category_addons`
  (`src/backend/core/extraction/phase{1,2,3,4}.py`);
* the semaphore-bounded fan-out `_bounded_gather` (same files), as a
  small-step state machine over explicit schedules;
* the four stage drivers `extract_all_pages`, as pure functions
  parameterised by the external collaborators (LLM stub, JSON parser,
  schema validators, page images);
* the item-counting loop of `get_job` (`src/backend/api/routes/jobs.py`).

The pydantic schemas (`backend.models.domain`) are kept abstract: every
validator is a parameter of type `α → Except ε β`, which is all the stage
drivers rely on.
-/

namespace MenuPipeline

/-! ## Unit-of-work retry loop

Each extractor method runs `for attempt in range(max_retries)`. The body of
one attempt: call the LLM, `json.loads` the raw text, `Model.model_validate`
the parsed object. A `json.JSONDecodeError` is caught by the inner handler:
if attempts remain it sleeps 1 second and continues, on the final attempt it
raises `ValueError(... invalid JSON ...: {error_msg})`. Any other exception
(provider failure, validation failure, and the final-attempt `ValueError`
itself) reaches the outer handler: if attempts remain it sleeps 1 second and
continues, otherwise it re-raises. The loop's fall-through line
`raise last_error if last_error else ValueError("All retry attempts failed")`
is only reachable with a zero retry budget.
-/

/-- Failure raised out of one extraction attempt.
`invalidJson` carries the parse diagnostic (the `error_msg` interpolated
into the `ValueError`), `validation` a pydantic validation failure,
`provider` an exception out of `self.llm.generate`. `allFailed` mirrors the
dead fall-through `ValueError("All retry attempts failed")`. -/
inductive ExtractErr (π ν ε : Type) where
  | invalidJson : π → ExtractErr π ν ε
  | validation : ν → ExtractErr π ν ε
  | provider : ε → ExtractErr π ν ε
  | allFailed : ExtractErr π ν ε
deriving Repr, DecidableEq

/-- Outcome of running a retry loop: the value returned or error raised,
how many attempts were executed, and the list of back-off delays slept
(in seconds, in order). -/
structure RetryTrace (τ E : Type) where
  result : Except E τ
  attempts : Nat
  sleeps : List Nat
deriving Repr

/-- One attempt of the common extractor body: LLM call, `json.loads`,
`model_validate`. The attempt index `i` selects the (stubbed) LLM response,
so a stub may answer differently on different attempts. -/
def extractAttempt {ρ σ τ π ν ε : Type}
    (llm : Nat → Except ε ρ) (parse : ρ → Except π σ)
    (validate : σ → Except ν τ) (i : Nat) : Except (ExtractErr π ν ε) τ :=
  match llm i with
  | .error e => .error (.provider e)
  | .ok raw =>
    match parse raw with
    | .error d => .error (.invalidJson d)
    | .ok data =>
      match validate data with
      | .error d => .error (.validation d)
      | .ok v => .ok v

/-- The `for attempt in range(max_retries)` loop, by recursion on the
number of attempts left; `idx` is the current attempt index. On a non-final
attempt an error is followed by `await asyncio.sleep(1)` and `continue`; on
the final attempt the error is raised. -/
def runRetryAux {τ E : Type} (dflt : E) (step : Nat → Except E τ) :
    Nat → Nat → RetryTrace τ E
  | _, 0 => ⟨.error dflt, 0, []⟩
  | idx, 1 => ⟨step idx, 1, []⟩
  | idx, left + 2 =>
    match step idx with
    | .ok v => ⟨.ok v, 1, []⟩
    | .error _ =>
      let r := runRetryAux dflt step (idx + 1) (left + 1)
      ⟨r.result, r.attempts + 1, 1 :: r.sleeps⟩

/-- Run a retry loop of `maxRetries` attempts from attempt index 0. -/
def runRetry {τ E : Type} (dflt : E) (step : Nat → Except E τ)
    (maxRetries : Nat) : RetryTrace τ E :=
  runRetryAux dflt step 0 maxRetries

/-- Source: `max_retries = 2` in `Phase1Extractor.extract_page`. -/
def phase1MaxRetries : Nat := 2

/-- Source: `max_retries = 3` in `Phase2Extractor.extract_category`. -/
def phase2MaxRetries : Nat := 3

/-- Source: `max_retries = 2` in `Phase3Extractor.extract_category_base`. -/
def phase3MaxRetries : Nat := 2

/-- Source: `max_retries = 2` in `Phase4Extractor.extract_category_addons`. -/
def phase4MaxRetries : Nat := 2

namespace Phase1Extractor

/-- Retry skeleton of `Phase1Extractor.extract_page`: the attempt body with
the page's prompt and image fixed, under a budget of 2 attempts. -/
def extract_page {ρ σ τ π ν ε : Type}
    (llm : Nat → Except ε ρ) (parse : ρ → Except π σ)
    (validate : σ → Except ν τ) : RetryTrace τ (ExtractErr π ν ε) :=
  runRetry .allFailed (extractAttempt llm parse validate) phase1MaxRetries

end Phase1Extractor

namespace Phase2Extractor

/-- Retry skeleton of `Phase2Extractor.extract_category` (budget 3). -/
def extract_category {ρ σ τ π ν ε : Type}
    (llm : Nat → Except ε ρ) (parse : ρ → Except π σ)
    (validate : σ → Except ν τ) : RetryTrace τ (ExtractErr π ν ε) :=
  runRetry .allFailed (extractAttempt llm parse validate) phase2MaxRetries

end Phase2Extractor

namespace Phase3Extractor

/-- Retry skeleton of `Phase3Extractor.extract_category_base` (budget 2). -/
def extract_category_base {ρ σ τ π ν ε : Type}
    (llm : Nat → Except ε ρ) (parse : ρ → Except π σ)
    (validate : σ → Except ν τ) : RetryTrace τ (ExtractErr π ν ε) :=
  runRetry .allFailed (extractAttempt llm parse validate) phase3MaxRetries

end Phase3Extractor

namespace Phase4Extractor

/-- Retry skeleton of `Phase4Extractor.extract_category_addons` (budget 2). -/
def extract_category_addons {ρ σ τ π ν ε : Type}
    (llm : Nat → Except ε ρ) (parse : ρ → Except π σ)
    (validate : σ → Except ν τ) : RetryTrace τ (ExtractErr π ν ε) :=
  runRetry .allFailed (extractAttempt llm parse validate) phase4MaxRetries

end Phase4Extractor

/-! ### Retry-loop lemmas -/

/-- If every attempt fails, the loop executes all `n ≥ 1` attempts, raises
the error of the final attempt, and sleeps once between consecutive
attempts. -/
theorem runRetry_all_fail {τ E : Type} (dflt : E) (step : Nat → Except E τ)
    (err : Nat → E) (h : ∀ i, step i = .error (err i)) :
    ∀ n idx, 1 ≤ n →
      runRetryAux dflt step idx n =
        ⟨.error (err (idx + n - 1)), n, List.replicate (n - 1) 1⟩ := by
  intro n
  induction n with
  | zero => intro idx h1; omega
  | succ m ih =>
    intro idx _
    match m with
    | 0 =>
      simp [runRetryAux, h idx]
    | k + 1 =>
      have hrec := ih (idx + 1) (by omega)
      simp only [runRetryAux, h idx, hrec]
      have h1 : idx + 1 + (k + 1) - 1 = idx + (k + 1 + 1) - 1 := by omega
      have h2 : k + 1 + 1 - 1 = (k + 1 - 1) + 1 := by omega
      rw [h1, h2, List.replicate_succ]

/-- If attempt `k` is the first to succeed (`k < n`), the loop returns its
value after exactly `k + 1` attempts. -/
theorem runRetry_first_success {τ E : Type} (dflt : E) (step : Nat → Except E τ)
    (v : τ) :
    ∀ n idx k, k + 1 ≤ n → (∀ i, i < k → (step (idx + i)).isOk = false) →
      step (idx + k) = .ok v →
      (runRetryAux dflt step idx n).result = .ok v ∧
      (runRetryAux dflt step idx n).attempts = k + 1 := by
  intro n
  induction n with
  | zero => intro idx k hk; omega
  | succ m ih =>
    intro idx k hk hfail hok
    match m, k with
    | 0, 0 =>
      simp at hok
      simp [runRetryAux, hok]
    | m' + 1, 0 =>
      simp at hok
      simp [runRetryAux, hok]
    | 0, k' + 1 => omega
    | m' + 1, k' + 1 =>
      have hstep0 : (step idx).isOk = false := by
        have := hfail 0 (by omega)
        simpa using this
      have : ∃ e, step idx = .error e := by
        cases hs : step idx with
        | ok w => rw [hs] at hstep0; simp [Except.isOk, Except.toBool] at hstep0
        | error e => exact ⟨e, rfl⟩
      obtain ⟨e, he⟩ := this
      have hrec := ih (idx + 1) k' (by omega)
        (fun i hi => by
          have := hfail (i + 1) (by omega)
          simpa [Nat.add_assoc, Nat.add_comm 1 i] using this)
        (by
          have : idx + 1 + k' = idx + (k' + 1) := by omega
          rw [this]; exact hok)
      simp only [runRetryAux, he]
      exact ⟨hrec.1, by simp [hrec.2]⟩

/-- The number of attempts and the sleep trace of the retry loop depend only
on which attempts fail, not on how they fail. -/
theorem runRetry_pattern {τ τ' E E' : Type} (d : E) (d' : E')
    (step : Nat → Except E τ) (step' : Nat → Except E' τ')
    (h : ∀ i, (step i).isOk = (step' i).isOk) :
    ∀ n idx,
      (runRetryAux d step idx n).attempts = (runRetryAux d' step' idx n).attempts ∧
      (runRetryAux d step idx n).sleeps = (runRetryAux d' step' idx n).sleeps := by
  intro n
  induction n with
  | zero => intro idx; simp [runRetryAux]
  | succ m ih =>
    intro idx
    match m with
    | 0 => simp [runRetryAux]
    | k + 1 =>
      have hiso := h idx
      cases hs : step idx with
      | ok v =>
        cases hs' : step' idx with
        | ok v' => simp [runRetryAux, hs, hs']
        | error e' =>
          rw [hs, hs'] at hiso
          simp [Except.isOk, Except.toBool] at hiso
      | error e =>
        cases hs' : step' idx with
        | ok v' =>
          rw [hs, hs'] at hiso
          simp [Except.isOk, Except.toBool] at hiso
        | error e' =>
          have hrec := ih (idx + 1)
          simp only [runRetryAux, hs, hs']
          exact ⟨by simp [hrec.1], by simp [hrec.2]⟩

/-- An error result is only produced once every attempt up to the budget has
failed, and it is the error of the final attempt (for budgets ≥ 1). -/
theorem runRetry_error_is_last {τ E : Type} (d : E) (step : Nat → Except E τ) :
    ∀ n idx e, 1 ≤ n →
      (runRetryAux d step idx n).result = .error e →
      step (idx + n - 1) = .error e := by
  intro n
  induction n with
  | zero => intro idx e h1; omega
  | succ m ih =>
    intro idx e _ hres
    match m with
    | 0 =>
      simp [runRetryAux] at hres
      simpa using hres
    | k + 1 =>
      cases hs : step idx with
      | ok v =>
        simp [runRetryAux, hs] at hres
      | error e0 =>
        simp only [runRetryAux, hs] at hres
        have := ih (idx + 1) e (by omega) hres
        have harith : idx + 1 + (k + 1) - 1 = idx + (k + 1 + 1) - 1 := by omega
        rwa [harith] at this

/-- The sleep trace is always one fixed 1-second delay per retry:
`attempts - 1` sleeps of length 1. -/
theorem runRetry_sleeps_fixed {τ E : Type} (d : E) (step : Nat → Except E τ) :
    ∀ n idx,
      (runRetryAux d step idx n).sleeps =
        List.replicate ((runRetryAux d step idx n).attempts - 1) 1 := by
  intro n
  induction n with
  | zero => intro idx; simp [runRetryAux]
  | succ m ih =>
    intro idx
    match m with
    | 0 =>
      simp [runRetryAux]
    | k + 1 =>
      cases hs : step idx with
      | ok v => simp [runRetryAux, hs]
      | error e =>
        simp only [runRetryAux, hs]
        have hrec := ih (idx + 1)
        have hat : 1 ≤ (runRetryAux d step (idx + 1) (k + 1)).attempts := by
          clear hrec
          induction k generalizing idx with
          | zero => simp [runRetryAux]
          | succ k' ihk =>
            cases hs' : step (idx + 1) with
            | ok v => simp [runRetryAux, hs']
            | error e' =>
              simp only [runRetryAux, hs']
              omega
        rw [hrec]
        have : (runRetryAux d step (idx + 1) (k + 1)).attempts + 1 - 1 =
            ((runRetryAux d step (idx + 1) (k + 1)).attempts - 1) + 1 := by omega
        rw [this, List.replicate_succ]

/-! ## `_bounded_gather`: semaphore-bounded fan-out as a state machine

All four extractor classes define the same method:

```python
async def _bounded_gather(self, coros):
    sem = asyncio.Semaphore(self.max_concurrency)
    async def _run(coro):
        async with sem:
            return await coro
    return await asyncio.gather(*(_run(c) for c in coros))
```

We model one invocation over `n` units, unit `i` producing `f i`, as a
small-step machine driven by an arbitrary schedule of actions. `start i`
admits unit `i` through the semaphore (allowed only while fewer than
`limit` units hold it); `finish i` completes a running unit and appends its
result to the completion log. `asyncio.gather` keeps one result slot per
position: it returns the results in submission order once all units are
done, or raises the first exception in completion order. -/

/-- Mutable state of one `_bounded_gather` invocation: the units currently
holding the semaphore, and the completion log in completion order. -/
structure BGState (β E : Type) where
  running : List Nat
  done : List (Nat × Except E β)
deriving Repr

/-- Scheduler actions: let a unit acquire the semaphore, or complete a
running unit. -/
inductive BGAction where
  | start : Nat → BGAction
  | finish : Nat → BGAction
deriving Repr, DecidableEq

/-- Indices that have already completed. -/
def doneKeys {β E : Type} (s : BGState β E) : List Nat :=
  s.done.map Prod.fst

/-- One scheduler step; `none` when the action is not enabled. A unit can be
admitted only if it exists, was not yet admitted or completed, and fewer
than `limit` units hold the semaphore. -/
def bgStep {β E : Type} (f : Nat → Except E β) (n limit : Nat)
    (s : BGState β E) : BGAction → Option (BGState β E)
  | .start i =>
    if i < n ∧ i ∉ s.running ∧ i ∉ doneKeys s ∧ s.running.length < limit then
      some ⟨s.running ++ [i], s.done⟩
    else none
  | .finish i =>
    if i ∈ s.running then
      some ⟨s.running.erase i, s.done ++ [(i, f i)]⟩
    else none

/-- Run a schedule of actions from a state. -/
def bgRun {β E : Type} (f : Nat → Except E β) (n limit : Nat) :
    BGState β E → List BGAction → Option (BGState β E)
  | s, [] => some s
  | s, a :: acts =>
    match bgStep f n limit s a with
    | none => none
    | some t => bgRun f n limit t acts

/-- The empty starting state. -/
def bgInit {β E : Type} : BGState β E := ⟨[], []⟩

/-- All `n` units have completed and released the semaphore. -/
def bgComplete {β E : Type} (n : Nat) (s : BGState β E) : Prop :=
  s.running = [] ∧ s.done.length = n

instance {β E : Type} (n : Nat) (s : BGState β E) :
    Decidable (bgComplete n s) := by
  unfold bgComplete; infer_instance

/-- First exception in completion order (what `asyncio.gather` raises). -/
def firstErr {β E : Type} : List (Nat × Except E β) → Option E
  | [] => none
  | (_, .error e) :: _ => some e
  | (_, .ok _) :: rest => firstErr rest

/-- The successful result of unit `i` in the completion log, if any. -/
def lookupOk {β E : Type} (done : List (Nat × Except E β)) (i : Nat) :
    Option β :=
  match done.lookup i with
  | some (.ok b) => some b
  | _ => none

/-- Gather `g i` for every `i` in the list, failing if any is missing. -/
def collectAll {β : Type} (g : Nat → Option β) : List Nat → Option (List β)
  | [] => some []
  | i :: rest =>
    match g i, collectAll g rest with
    | some b, some bs => some (b :: bs)
    | _, _ => none

/-- What `asyncio.gather` hands back for a completed invocation: the first
exception in completion order if any unit failed, otherwise the unit
results arranged in submission order `0, …, n-1`. `none` while incomplete. -/
def bgResult {β E : Type} (n : Nat) (s : BGState β E) :
    Option (Except E (List β)) :=
  if s.done.length = n then
    match firstErr s.done with
    | some e => some (.error e)
    | none =>
      match collectAll (lookupOk s.done) (List.range n) with
      | some l => some (.ok l)
      | none => none
  else none

/-- Invariant of every reachable `_bounded_gather` state: no unit is both
running and done or appears twice, every tracked index is a real unit, and
the log records exactly `f i` for unit `i`. -/
def bgInv {β E : Type} (f : Nat → Except E β) (n : Nat) (s : BGState β E) :
    Prop :=
  (s.running ++ doneKeys s).Nodup ∧
  (∀ i ∈ s.running, i < n) ∧
  (∀ p ∈ s.done, p.1 < n ∧ p.2 = f p.1)

theorem bgInv_init {β E : Type} (f : Nat → Except E β) (n : Nat) :
    bgInv f n (bgInit (β := β) (E := E)) := by
  refine ⟨by simp [bgInit, doneKeys], by simp [bgInit], by simp [bgInit]⟩

theorem bgStep_inv {β E : Type} {f : Nat → Except E β} {n limit : Nat}
    {s t : BGState β E} {a : BGAction}
    (hinv : bgInv f n s) (hstep : bgStep f n limit s a = some t) :
    bgInv f n t := by
  obtain ⟨hnd, hrun, hdone⟩ := hinv
  cases a with
  | start i =>
    simp only [bgStep] at hstep
    split at hstep
    · rename_i hcond
      obtain ⟨hin, hnr, hnk, _⟩ := hcond
      cases hstep
      refine ⟨?_, ?_, hdone⟩
      · show ((s.running ++ [i]) ++ doneKeys s).Nodup
        have heq : (s.running ++ [i]) ++ doneKeys s =
            s.running ++ i :: doneKeys s := by simp
        rw [heq]
        refine List.perm_middle.nodup_iff.mpr ?_
        refine List.nodup_cons.mpr ⟨?_, hnd⟩
        simp only [List.mem_append]
        rintro (h | h)
        · exact hnr h
        · exact hnk h
      · intro j hj
        rcases List.mem_append.mp hj with h | h
        · exact hrun j h
        · simp at h; omega
    · simp at hstep
  | finish i =>
    simp only [bgStep] at hstep
    split at hstep
    · rename_i hmem
      cases hstep
      refine ⟨?_, ?_, ?_⟩
      · show (s.running.erase i ++ doneKeys
          (⟨s.running.erase i, s.done ++ [(i, f i)]⟩ : BGState β E)).Nodup
        have hkeys : doneKeys
            (⟨s.running.erase i, s.done ++ [(i, f i)]⟩ : BGState β E) =
            doneKeys s ++ [i] := by simp [doneKeys]
        rw [hkeys, ← List.append_assoc]
        have hperm : List.Perm (s.running ++ doneKeys s)
            (i :: (s.running.erase i ++ doneKeys s)) :=
          (List.perm_cons_erase hmem).append_right (doneKeys s)
        have hnd2 : (i :: (s.running.erase i ++ doneKeys s)).Nodup :=
          hperm.nodup_iff.mp hnd
        obtain ⟨hni, hnd3⟩ := List.nodup_cons.mp hnd2
        refine List.Nodup.append hnd3 (List.nodup_singleton i) ?_
        intro a ha hai
        simp only [List.mem_singleton] at hai
        subst hai
        exact hni ha
      · intro j hj
        exact hrun j (List.mem_of_mem_erase hj)
      · intro p hp
        rcases List.mem_append.mp hp with h | h
        · exact hdone p h
        · simp at h
          subst h
          exact ⟨hrun i hmem, rfl⟩
    · simp at hstep

theorem bgRun_inv {β E : Type} {f : Nat → Except E β} {n limit : Nat} :
    ∀ {acts : List BGAction} {s t : BGState β E},
      bgInv f n s → bgRun f n limit s acts = some t → bgInv f n t := by
  intro acts
  induction acts with
  | nil => intro s t hinv h; simp [bgRun] at h; subst h; exact hinv
  | cons a rest ih =>
    intro s t hinv h
    simp only [bgRun] at h
    cases hs : bgStep f n limit s a with
    | none => rw [hs] at h; cases h
    | some u =>
      rw [hs] at h
      exact ih (bgStep_inv hinv hs) h

/-- The semaphore bound holds in every reachable state: at most `limit`
units are simultaneously admitted. -/
theorem bgRun_bound {β E : Type} {f : Nat → Except E β} {n limit : Nat} :
    ∀ {acts : List BGAction} {s t : BGState β E},
      s.running.length ≤ limit → bgRun f n limit s acts = some t →
      t.running.length ≤ limit := by
  intro acts
  induction acts with
  | nil => intro s t hb h; simp [bgRun] at h; subst h; exact hb
  | cons a rest ih =>
    intro s t hb h
    simp only [bgRun] at h
    cases hs : bgStep f n limit s a with
    | none => rw [hs] at h; cases h
    | some u =>
      rw [hs] at h
      refine ih ?_ h
      cases a with
      | start i =>
        simp only [bgStep] at hs
        split at hs
        · rename_i hcond
          cases hs
          simp only [List.length_append, List.length_singleton]
          omega
        · cases hs
      | finish i =>
        simp only [bgStep] at hs
        split at hs
        · cases hs
          calc (s.running.erase i).length ≤ s.running.length :=
                List.length_erase_le i s.running
            _ ≤ limit := hb
        · cases hs

/-- In a completed invocation satisfying the invariant, every unit index is
in the completion log. -/
theorem bg_complete_coverage {β E : Type} {f : Nat → Except E β} {n : Nat}
    {s : BGState β E} (hinv : bgInv f n s) (hc : bgComplete n s) :
    ∀ i, i < n → i ∈ doneKeys s := by
  obtain ⟨hnd, _, hdone⟩ := hinv
  obtain ⟨hrun0, hlen⟩ := hc
  have hknd : (doneKeys s).Nodup := by
    rw [hrun0] at hnd
    simpa using hnd
  have hsub : doneKeys s ⊆ List.range n := by
    intro k hk
    simp only [doneKeys, List.mem_map] at hk
    obtain ⟨p, hp, hpk⟩ := hk
    rw [List.mem_range, ← hpk]
    exact (hdone p hp).1
  have hklen : (doneKeys s).length = n := by
    simp [doneKeys, hlen]
  have hperm : List.Perm (doneKeys s) (List.range n) :=
    (hknd.subperm hsub).perm_of_length_le (by simp [hklen])
  intro i hi
  exact hperm.mem_iff.mpr (List.mem_range.mpr hi)

/-- In the log, the recorded result of any completed unit `i` is `f i`. -/
theorem bg_lookup_done {β E : Type} {f : Nat → Except E β} :
    ∀ {done : List (Nat × Except E β)},
      (∀ p ∈ done, p.2 = f p.1) → ∀ i, i ∈ done.map Prod.fst →
      done.lookup i = some (f i) := by
  intro done
  induction done with
  | nil => intro _ i hi; simp at hi
  | cons p rest ih =>
    intro hval i hi
    obtain ⟨k, r⟩ := p
    by_cases hik : i = k
    · subst hik
      have : r = f i := hval (i, r) (by simp)
      simp [List.lookup, this]
    · have hmem : i ∈ rest.map Prod.fst := by
        simp at hi
        rcases hi with h | h
        · exact absurd h hik
        · simpa using h
      have := ih (fun q hq => hval q (by simp [hq])) i hmem
      have hbeq : (i == k) = false := beq_eq_false_iff_ne.mpr hik
      simp only [List.lookup, hbeq]
      exact this

theorem collectAll_of_forall {β : Type} {g : Nat → Option β} {h : Nat → β} :
    ∀ {l : List Nat}, (∀ i ∈ l, g i = some (h i)) →
      collectAll g l = some (l.map h) := by
  intro l
  induction l with
  | nil => intro _; simp [collectAll]
  | cons i rest ih =>
    intro hall
    have h1 : g i = some (h i) := hall i (by simp)
    have h2 := ih (fun j hj => hall j (by simp [hj]))
    simp [collectAll, h1, h2]

theorem firstErr_none_of_ok {β E : Type} :
    ∀ {done : List (Nat × Except E β)},
      (∀ p ∈ done, (p.2).isOk = true) → firstErr done = none := by
  intro done
  induction done with
  | nil => intro _; simp [firstErr]
  | cons p rest ih =>
    intro hall
    obtain ⟨k, r⟩ := p
    cases hr : r with
    | error e =>
      have := hall (k, r) (by simp)
      rw [hr] at this
      simp [Except.isOk, Except.toBool] at this
    | ok b =>
      subst hr
      exact ih (fun q hq => hall q (by simp [hq]))

/-- If the log holds some failed unit, `firstErr` returns the error of a
failed unit (the first in completion order). -/
theorem firstErr_some_of_err {β E : Type} {f : Nat → Except E β} {n : Nat} :
    ∀ {done : List (Nat × Except E β)},
      (∀ p ∈ done, p.1 < n ∧ p.2 = f p.1) →
      (∃ p ∈ done, (p.2).isOk = false) →
      ∃ j ej, j < n ∧ f j = .error ej ∧ firstErr done = some ej := by
  intro done
  induction done with
  | nil => rintro _ ⟨p, hp, _⟩; simp at hp
  | cons q rest ih =>
    rintro hval ⟨p, hp, hperr⟩
    obtain ⟨k, r⟩ := q
    cases hr : r with
    | error e =>
      have hq := hval (k, r) (by simp)
      refine ⟨k, e, hq.1, ?_, by simp [hr, firstErr]⟩
      rw [← hq.2, hr]
    | ok b =>
      subst hr
      have hrest : ∃ p ∈ rest, (p.2).isOk = false := by
        rcases List.mem_cons.mp hp with h | h
        · subst h
          simp [Except.isOk, Except.toBool] at hperr
        · exact ⟨p, h, hperr⟩
      obtain ⟨j, ej, hj, hfj, hfe⟩ :=
        ih (fun q hq => hval q (by simp [hq])) hrest
      exact ⟨j, ej, hj, hfj, by simp [firstErr, hfe]⟩

/-- A completed all-successful invocation returns the unit results in
submission order, whatever the schedule was. -/
theorem bgResult_ok_order {β E : Type} {f : Nat → Except E β} {g : Nat → β}
    {n limit : Nat} {acts : List BGAction} {s : BGState β E}
    (hrun : bgRun f n limit bgInit acts = some s) (hc : bgComplete n s)
    (hok : ∀ i, i < n → f i = .ok (g i)) :
    bgResult n s = some (.ok ((List.range n).map g)) := by
  have hinv := bgRun_inv (bgInv_init f n) hrun
  have hcov := bg_complete_coverage hinv hc
  obtain ⟨_, _, hdone⟩ := hinv
  have hallok : ∀ p ∈ s.done, (p.2).isOk = true := by
    intro p hp
    obtain ⟨hlt, hval⟩ := hdone p hp
    rw [hval, hok p.1 hlt]
    rfl
  have hfe : firstErr s.done = none := firstErr_none_of_ok hallok
  have hlook : ∀ i ∈ List.range n, lookupOk s.done i = some (g i) := by
    intro i hi
    have hilt := List.mem_range.mp hi
    have := bg_lookup_done (fun p hp => (hdone p hp).2) i (hcov i hilt)
    simp only [lookupOk, this, hok i hilt]
  have hcol := collectAll_of_forall hlook
  simp [bgResult, hc.2, hfe, hcol]

/-- A completed invocation with a failed unit yields the error of a failed
unit (the first in completion order), never a truncated result list. -/
theorem bgResult_failfast {β E : Type} {f : Nat → Except E β}
    {n limit : Nat} {acts : List BGAction} {s : BGState β E}
    (hrun : bgRun f n limit bgInit acts = some s) (hc : bgComplete n s)
    {i : Nat} (hi : i < n) {e : E} (hf : f i = .error e) :
    ∃ j ej, j < n ∧ f j = .error ej ∧ bgResult n s = some (.error ej) := by
  have hinv := bgRun_inv (bgInv_init f n) hrun
  have hcov := bg_complete_coverage hinv hc
  obtain ⟨_, _, hdone⟩ := hinv
  have hmem : i ∈ doneKeys s := hcov i hi
  have hex : ∃ p ∈ s.done, (p.2).isOk = false := by
    simp only [doneKeys, List.mem_map] at hmem
    obtain ⟨p, hp, hpk⟩ := hmem
    refine ⟨p, hp, ?_⟩
    rw [(hdone p hp).2, hpk, hf]
    rfl
  obtain ⟨j, ej, hj, hfj, hfe⟩ := firstErr_some_of_err hdone hex
  refine ⟨j, ej, hj, hfj, ?_⟩
  simp [bgResult, hc.2, hfe]

/-! ## Configuration (`backend/config.py`) -/

namespace Settings

/-- Source: `MAX_CONCURRENCY: int = 4` in `Settings`. -/
def MAX_CONCURRENCY : Nat := 4

end Settings

/-- Every extractor's `__init__` runs
`self.max_concurrency = max_concurrency or get_settings().MAX_CONCURRENCY`;
Python `or` falls through on `None` (the default) and on `0`. -/
def effectiveMaxConcurrency : Option Nat → Nat
  | none => Settings.MAX_CONCURRENCY
  | some k => if k = 0 then Settings.MAX_CONCURRENCY else k

/-! ## Stage drivers (`extract_all_pages`)

The drivers are embedded as pure functions over
* `images` — the list `await self.pdf_processor.convert_to_images(pdf_path)`;
* abstract schema validators (the pydantic models live in
  `backend.models.domain`; the drivers only apply `Model.model_validate`
  followed by `.model_dump()`, modelled as a fallible function);
* an abstract per-unit extractor, standing for the retry loop above.

Per-unit fan-outs are refined to sequential left-to-right evaluation
(`exceptMap`), justified by `bgResult_ok_order`/`bgResult_failfast`: the
gather preserves submission order and surfaces a unit failure as the
invocation's failure. Each driver additionally records the fan-out
invocations it performs (one `_bounded_gather` call per recorded entry). -/

/-- Python list indexing `xs[i]`, with negative-index wraparound;
`none` is an `IndexError`. -/
def pyGet {α : Type} (xs : List α) (i : Int) : Option α :=
  if 0 ≤ i then xs.get? i.toNat
  else if 0 ≤ i + xs.length then xs.get? (i + xs.length).toNat
  else none

/-- Left-to-right evaluation of a fallible function over a list,
propagating the first failure. -/
def exceptMap {κ ω U : Type} (f : κ → Except U ω) : List κ → Except U (List ω)
  | [] => .ok []
  | c :: rest =>
    match f c with
    | .error e => .error e
    | .ok w =>
      match exceptMap f rest with
      | .error e => .error e
      | .ok ws => .ok (w :: ws)

theorem exceptMap_total {κ ω U : Type} {f : κ → Except U ω} {g : κ → ω}
    (hf : ∀ c, f c = .ok (g c)) :
    ∀ l : List κ, exceptMap f l = .ok (l.map g) := by
  intro l
  induction l with
  | nil => simp [exceptMap]
  | cons c rest ih => simp [exceptMap, hf c, ih]

theorem exceptMap_ok_mem {κ ω U : Type} {f : κ → Except U ω} :
    ∀ {l : List κ} {ws : List ω}, exceptMap f l = .ok ws →
      ∀ c ∈ l, ∃ w, f c = .ok w := by
  intro l
  induction l with
  | nil => intro ws _ c hc; simp at hc
  | cons c0 rest ih =>
    intro ws h c hc
    simp only [exceptMap] at h
    cases hf : f c0 with
    | error e => rw [hf] at h; cases h
    | ok w =>
      rw [hf] at h
      cases hr : exceptMap f rest with
      | error e => rw [hr] at h; cases h
      | ok ws' =>
        rcases List.mem_cons.mp hc with hceq | hcm
        · exact ⟨w, hceq ▸ hf⟩
        · exact ih hr c hcm

/-- A page entry of the Stage 1 document: `{"page_number": …, "data": …}`. -/
structure P1Page (δ : Type) where
  page_number : Nat
  data : δ
deriving Repr, DecidableEq

/-- A page entry of the Stage 2/3/4 documents:
`{"page_number": …, "categories": […]}`. -/
structure CatPage (δ : Type) where
  page_number : Nat
  categories : List δ
deriving Repr, DecidableEq

/-- The uniform stage envelope
`{"restaurant_name": …, "pages": […]}`. -/
structure StageDoc (π : Type) where
  restaurant_name : String
  pages : List π
deriving Repr, DecidableEq

/-- Failures a stage driver can raise while destructuring its input:
`IndexError` from `images[page_number - 1]`, a pydantic validation failure
on the loaded document, or a unit failure bubbled out of the fan-out. -/
inductive StageErr (V U : Type) where
  | indexError : StageErr V U
  | validation : V → StageErr V U
  | unitFailure : U → StageErr V U
deriving Repr, DecidableEq

namespace Phase1Extractor

/-- The pages of `Phase1Extractor.extract_all_pages`: one unit per image,
page numbers from `enumerate(images, start=1)` (`k` is the next number to
assign). -/
def pagesFrom {ι γ U : Type} (extract : Nat → ι → Except U γ) :
    Nat → List ι → Except U (List (P1Page γ))
  | _, [] => .ok []
  | k, img :: rest =>
    match extract k img with
    | .error e => .error e
    | .ok d =>
      match pagesFrom extract (k + 1) rest with
      | .error e => .error e
      | .ok ps => .ok (⟨k, d⟩ :: ps)

/-- Embeds `Phase1Extractor.extract_all_pages`: convert the PDF to `images`, run
`extract_page` over every page in one fan-out, assemble the Stage 1
document. -/
def extract_all_pages {ι γ U : Type} (restaurant_name : String)
    (images : List ι) (extract : Nat → ι → Except U γ) :
    Except U (StageDoc (P1Page γ)) :=
  match pagesFrom extract 1 images with
  | .error e => .error e
  | .ok ps => .ok ⟨restaurant_name, ps⟩

end Phase1Extractor

namespace Phase2Extractor

/-- The page loop of `Phase2Extractor.extract_all_pages`. For each input
page, in order: index `images[page_number - 1]`, validate the page's
`data` with `Categories.model_validate` (modelled by
`validateCategories`, returning the dumped `categories` list), then run
one fan-out over that page's categories (`extract_page`). Returns the
assembled pages (or the first failure) together with the fan-out
invocations performed, each recorded as its list of
`(page_number, category index)` units. -/
def goPages {ι δ κ ω V U : Type} (images : List ι)
    (validateCategories : δ → Except V (List κ))
    (extract_category : Nat → ι → κ → Except U ω) :
    List (P1Page δ) →
      Except (StageErr V U) (List (CatPage ω)) × List (List (Nat × Nat))
  | [] => (.ok [], [])
  | page :: rest =>
    match pyGet images ((page.page_number : Int) - 1) with
    | none => (.error .indexError, [])
    | some img =>
      match validateCategories page.data with
      | .error v => (.error (.validation v), [])
      | .ok cats =>
        let units := (List.range cats.length).map fun j => (page.page_number, j)
        match exceptMap (extract_category page.page_number img) cats with
        | .error u => (.error (.unitFailure u), [units])
        | .ok results =>
          match goPages images validateCategories extract_category rest with
          | (.error e, calls) => (.error e, units :: calls)
          | (.ok ps, calls) =>
            (.ok (⟨page.page_number, results⟩ :: ps), units :: calls)

/-- Embeds `Phase2Extractor.extract_all_pages` together with its fan-out trace. -/
def extract_all_pages {ι δ κ ω V U : Type} (restaurant_name : String)
    (images : List ι) (validateCategories : δ → Except V (List κ))
    (extract_category : Nat → ι → κ → Except U ω)
    (payload : StageDoc (P1Page δ)) :
    Except (StageErr V U) (StageDoc (CatPage ω)) × List (List (Nat × Nat)) :=
  match goPages images validateCategories extract_category payload.pages with
  | (.error e, calls) => (.error e, calls)
  | (.ok ps, calls) => (.ok ⟨restaurant_name, ps⟩, calls)

end Phase2Extractor

namespace Phase3Extractor

/-- The page loop of `Phase3Extractor.extract_all_pages`: per page, index
the image, validate every category with `CategoryWithItems.model_validate`
(the list comprehension fails on the first invalid one), then one fan-out
over the page's categories. -/
def goPages {ι δ κ ω V U : Type} (images : List ι)
    (validateCategoryWithItems : δ → Except V κ)
    (extract_category_base : Nat → ι → κ → Except U ω) :
    List (CatPage δ) →
      Except (StageErr V U) (List (CatPage ω)) × List (List (Nat × Nat))
  | [] => (.ok [], [])
  | page :: rest =>
    match pyGet images ((page.page_number : Int) - 1) with
    | none => (.error .indexError, [])
    | some img =>
      match exceptMap validateCategoryWithItems page.categories with
      | .error v => (.error (.validation v), [])
      | .ok cats =>
        let units := (List.range cats.length).map fun j => (page.page_number, j)
        match exceptMap (extract_category_base page.page_number img) cats with
        | .error u => (.error (.unitFailure u), [units])
        | .ok results =>
          match goPages images validateCategoryWithItems extract_category_base
              rest with
          | (.error e, calls) => (.error e, units :: calls)
          | (.ok ps, calls) =>
            (.ok (⟨page.page_number, results⟩ :: ps), units :: calls)

/-- Embeds `Phase3Extractor.extract_all_pages` together with its fan-out trace. -/
def extract_all_pages {ι δ κ ω V U : Type} (restaurant_name : String)
    (images : List ι) (validateCategoryWithItems : δ → Except V κ)
    (extract_category_base : Nat → ι → κ → Except U ω)
    (items_payload : StageDoc (CatPage δ)) :
    Except (StageErr V U) (StageDoc (CatPage ω)) × List (List (Nat × Nat)) :=
  match goPages images validateCategoryWithItems extract_category_base
      items_payload.pages with
  | (.error e, calls) => (.error e, calls)
  | (.ok ps, calls) => (.ok ⟨restaurant_name, ps⟩, calls)

end Phase3Extractor

namespace Phase4Extractor

/-- The page loop of `Phase4Extractor.extract_all_pages` over
`zip(items_payload["pages"], bases_payload["pages"])`: per page pair,
index the image by the items page's number, validate every category
(`CategoryWithItems`) and every base (`CategoryBase`), then one fan-out
over `zip(page_categories, page_bases)` (`extract_page`). The fan-out
trace records the actual `(category, base)` unit pairs launched. -/
def goPages {ι δa δb κa κb ω V U : Type} (images : List ι)
    (validateCategoryWithItems : δa → Except V κa)
    (validateCategoryBase : δb → Except V κb)
    (extract_category_addons : Nat → ι → κa → κb → Except U ω) :
    List (CatPage δa × CatPage δb) →
      Except (StageErr V U) (List (CatPage ω)) × List (List (κa × κb))
  | [] => (.ok [], [])
  | (pItems, pBases) :: rest =>
    match pyGet images ((pItems.page_number : Int) - 1) with
    | none => (.error .indexError, [])
    | some img =>
      match exceptMap validateCategoryWithItems pItems.categories with
      | .error v => (.error (.validation v), [])
      | .ok cats =>
        match exceptMap validateCategoryBase pBases.categories with
        | .error v => (.error (.validation v), [])
        | .ok bases =>
          let units := cats.zip bases
          match exceptMap
              (fun cb => extract_category_addons pItems.page_number img
                cb.1 cb.2) units with
          | .error u => (.error (.unitFailure u), [units])
          | .ok results =>
            match goPages images validateCategoryWithItems
                validateCategoryBase extract_category_addons rest with
            | (.error e, calls) => (.error e, units :: calls)
            | (.ok ps, calls) =>
              (.ok (⟨pItems.page_number, results⟩ :: ps), units :: calls)

/-- Embeds `Phase4Extractor.extract_all_pages` with its fan-out trace. Pages of
the two input documents are paired positionally by `zip`. -/
def extract_all_pages {ι δa δb κa κb ω V U : Type} (restaurant_name : String)
    (images : List ι) (validateCategoryWithItems : δa → Except V κa)
    (validateCategoryBase : δb → Except V κb)
    (extract_category_addons : Nat → ι → κa → κb → Except U ω)
    (items_payload : StageDoc (CatPage δa))
    (bases_payload : StageDoc (CatPage δb)) :
    Except (StageErr V U) (StageDoc (CatPage ω)) × List (List (κa × κb)) :=
  match goPages images validateCategoryWithItems validateCategoryBase
      extract_category_addons (items_payload.pages.zip bases_payload.pages) with
  | (.error e, calls) => (.error e, calls)
  | (.ok ps, calls) => (.ok ⟨restaurant_name, ps⟩, calls)

end Phase4Extractor

/-! ## Driver lemmas -/

theorem range'_get? : ∀ (n s i : Nat), i < n →
    (List.range' s n).get? i = some (s + i) := by
  intro n
  induction n with
  | zero => intro s i hi; omega
  | succ m ih =>
    intro s i hi
    cases i with
    | zero => simp [List.range']
    | succ j =>
      have := ih (s + 1) j (by omega)
      simp only [List.range', List.get?]
      rw [this]
      congr 1
      omega

namespace Phase1Extractor

theorem pagesFrom_ok_pageNums {ι γ U : Type}
    {extract : Nat → ι → Except U γ} :
    ∀ {images : List ι} {k : Nat} {ps : List (P1Page γ)},
      pagesFrom extract k images = .ok ps →
      ps.map (fun p => p.page_number) = List.range' k images.length := by
  intro images
  induction images with
  | nil =>
    intro k ps h
    simp only [pagesFrom] at h
    cases h
    simp [List.range']
  | cons img rest ih =>
    intro k ps h
    simp only [pagesFrom] at h
    cases hx : extract k img with
    | error e => rw [hx] at h; cases h
    | ok d =>
      rw [hx] at h
      cases hr : pagesFrom extract (k + 1) rest with
      | error e => rw [hr] at h; cases h
      | ok ps' =>
        rw [hr] at h
        cases h
        simp only [List.map_cons, List.length_cons]
        rw [ih hr]
        rfl

end Phase1Extractor

namespace Phase2Extractor

/-- Everything a successful Stage 2 page loop guarantees: page numbers are
carried over from the input in order, and for every input page the image
lookup, the `Categories` validation of its `data`, and every category
unit's extraction succeeded (nothing is skipped). -/
theorem goPages2_ok_spec {ι δ κ ω V U : Type} {images : List ι}
    {v : δ → Except V (List κ)} {e : Nat → ι → κ → Except U ω} :
    ∀ {pages : List (P1Page δ)} {out : List (CatPage ω)}
      {calls : List (List (Nat × Nat))},
      goPages images v e pages = (.ok out, calls) →
      out.map (fun p => p.page_number) = pages.map (fun p => p.page_number) ∧
      ∀ page ∈ pages, ∃ img,
        pyGet images ((page.page_number : Int) - 1) = some img ∧
        ∃ cats, v page.data = .ok cats ∧
          ∀ c ∈ cats, ∃ w, e page.page_number img c = .ok w := by
  intro pages
  induction pages with
  | nil =>
    intro out calls h
    simp only [goPages, Prod.mk.injEq] at h
    obtain ⟨h1, h2⟩ := h
    cases h1
    exact ⟨rfl, by simp⟩
  | cons page rest ih =>
    intro out calls h
    simp only [goPages] at h
    cases himg : pyGet images ((page.page_number : Int) - 1) with
    | none => simp only [himg] at h; simp at h
    | some img =>
      simp only [himg] at h
      cases hv : v page.data with
      | error vv => simp only [hv] at h; simp at h
      | ok cats =>
        simp only [hv] at h
        cases hexm : exceptMap (e page.page_number img) cats with
        | error u => simp only [hexm] at h; simp at h
        | ok results =>
          simp only [hexm] at h
          rcases hrec : goPages images v e rest with ⟨r, calls'⟩
          simp only [hrec] at h
          cases r with
          | error e0 => simp at h
          | ok ps =>
            simp only [Prod.mk.injEq, Except.ok.injEq] at h
            obtain ⟨h1, h2⟩ := h
            subst h1
            obtain ⟨hnums, hall⟩ := ih hrec
            refine ⟨by simp [hnums], ?_⟩
            intro q hq
            rcases List.mem_cons.mp hq with hq | hq
            · subst hq
              exact ⟨img, himg, cats, hv, exceptMap_ok_mem hexm⟩
            · exact hall q hq

/-- With an always-valid document and always-successful units, the Stage 2
page loop returns one output page per input page and performs exactly one
fan-out invocation per input page, covering exactly that page's
`(page_number, category index)` units. -/
theorem goPages2_total {ι δ κ ω V U : Type} {images : List ι}
    (gv : δ → List κ) (ge : Nat → κ → ω) :
    ∀ {pages : List (P1Page δ)},
      (∀ page ∈ pages, ∃ img,
        pyGet images ((page.page_number : Int) - 1) = some img) →
      @goPages ι δ κ ω V U images (fun d => .ok (gv d))
          (fun pn _ c => .ok (ge pn c)) pages =
        (.ok (pages.map fun p =>
            ⟨p.page_number, (gv p.data).map (ge p.page_number)⟩),
         pages.map fun p =>
            (List.range (gv p.data).length).map fun j => (p.page_number, j)) := by
  intro pages
  induction pages with
  | nil => intro _; simp [goPages]
  | cons page rest ih =>
    intro himg
    obtain ⟨img, himg0⟩ := himg page (by simp)
    have hunits := exceptMap_total
      (f := fun c => (.ok (ge page.page_number c) : Except U ω))
      (g := ge page.page_number) (fun c => rfl) (gv page.data)
    have hrec := ih (fun q hq => himg q (by simp [hq]))
    simp only [goPages, himg0, hunits, hrec, List.map_cons]

end Phase2Extractor

namespace Phase3Extractor

/-- Everything a successful Stage 3 page loop guarantees: page numbers
carried over in order; for every input page the image lookup succeeded,
every category of the page passed `CategoryWithItems.model_validate`, and
every resulting unit's base extraction succeeded. -/
theorem goPages3_ok_spec {ι δ κ ω V U : Type} {images : List ι}
    {v : δ → Except V κ} {e : Nat → ι → κ → Except U ω} :
    ∀ {pages : List (CatPage δ)} {out : List (CatPage ω)}
      {calls : List (List (Nat × Nat))},
      goPages images v e pages = (.ok out, calls) →
      out.map (fun p => p.page_number) = pages.map (fun p => p.page_number) ∧
      ∀ page ∈ pages, ∃ img,
        pyGet images ((page.page_number : Int) - 1) = some img ∧
        (∀ c ∈ page.categories, ∃ w, v c = .ok w) ∧
        ∃ cats, exceptMap v page.categories = .ok cats ∧
          ∀ c ∈ cats, ∃ w, e page.page_number img c = .ok w := by
  intro pages
  induction pages with
  | nil =>
    intro out calls h
    simp only [goPages, Prod.mk.injEq] at h
    obtain ⟨h1, h2⟩ := h
    cases h1
    exact ⟨rfl, by simp⟩
  | cons page rest ih =>
    intro out calls h
    simp only [goPages] at h
    cases himg : pyGet images ((page.page_number : Int) - 1) with
    | none => simp only [himg] at h; simp at h
    | some img =>
      simp only [himg] at h
      cases hv : exceptMap v page.categories with
      | error vv => simp only [hv] at h; simp at h
      | ok cats =>
        simp only [hv] at h
        cases hexm : exceptMap (e page.page_number img) cats with
        | error u => simp only [hexm] at h; simp at h
        | ok results =>
          simp only [hexm] at h
          rcases hrec : goPages images v e rest with ⟨r, calls'⟩
          simp only [hrec] at h
          cases r with
          | error e0 => simp at h
          | ok ps =>
            simp only [Prod.mk.injEq, Except.ok.injEq] at h
            obtain ⟨h1, h2⟩ := h
            subst h1
            obtain ⟨hnums, hall⟩ := ih hrec
            refine ⟨by simp [hnums], ?_⟩
            intro q hq
            rcases List.mem_cons.mp hq with hq | hq
            · subst hq
              exact ⟨img, himg, exceptMap_ok_mem hv, cats, hv,
                exceptMap_ok_mem hexm⟩
            · exact hall q hq

/-- Total-success instance of the Stage 3 page loop: one fan-out
invocation per input page, over that page's categories. -/
theorem goPages3_total {ι δ κ ω V U : Type} {images : List ι}
    (gv : δ → κ) (ge : Nat → κ → ω) :
    ∀ {pages : List (CatPage δ)},
      (∀ page ∈ pages, ∃ img,
        pyGet images ((page.page_number : Int) - 1) = some img) →
      @goPages ι δ κ ω V U images (fun c => .ok (gv c))
          (fun pn _ c => .ok (ge pn c)) pages =
        (.ok (pages.map fun p =>
            ⟨p.page_number, (p.categories.map gv).map (ge p.page_number)⟩),
         pages.map fun p =>
            (List.range p.categories.length).map fun j => (p.page_number, j)) := by
  intro pages
  induction pages with
  | nil => intro _; simp [goPages]
  | cons page rest ih =>
    intro himg
    obtain ⟨img, himg0⟩ := himg page (by simp)
    have hval := exceptMap_total
      (f := fun c => (.ok (gv c) : Except V κ)) (g := gv)
      (fun c => rfl) page.categories
    have hunits := exceptMap_total
      (f := fun c => (.ok (ge page.page_number c) : Except U ω))
      (g := ge page.page_number) (fun c => rfl) (page.categories.map gv)
    have hrec := ih (fun q hq => himg q (by simp [hq]))
    simp only [goPages, himg0, hval, hunits, hrec, List.map_cons,
      List.length_map]

end Phase3Extractor

namespace Phase4Extractor

/-- Everything a successful Stage 4 page loop guarantees, over the
positionally zipped page pairs: page numbers carried over from the items
page of each pair, image lookup succeeded, every category passed the
`CategoryWithItems` validation, every base passed the `CategoryBase`
validation, and every zipped `(category, base)` unit was extracted. -/
theorem goPages4_ok_spec {ι δa δb κa κb ω V U : Type} {images : List ι}
    {va : δa → Except V κa} {vb : δb → Except V κb}
    {e : Nat → ι → κa → κb → Except U ω} :
    ∀ {pairs : List (CatPage δa × CatPage δb)} {out : List (CatPage ω)}
      {calls : List (List (κa × κb))},
      goPages images va vb e pairs = (.ok out, calls) →
      out.map (fun p => p.page_number) =
        pairs.map (fun q => q.1.page_number) ∧
      ∀ q ∈ pairs, ∃ img,
        pyGet images ((q.1.page_number : Int) - 1) = some img ∧
        (∀ c ∈ q.1.categories, ∃ w, va c = .ok w) ∧
        (∀ b ∈ q.2.categories, ∃ w, vb b = .ok w) ∧
        ∃ cats bases, exceptMap va q.1.categories = .ok cats ∧
          exceptMap vb q.2.categories = .ok bases ∧
          ∀ u ∈ cats.zip bases, ∃ w,
            e q.1.page_number img u.1 u.2 = .ok w := by
  intro pairs
  induction pairs with
  | nil =>
    intro out calls h
    simp only [goPages, Prod.mk.injEq] at h
    obtain ⟨h1, h2⟩ := h
    cases h1
    exact ⟨rfl, by simp⟩
  | cons pair rest ih =>
    intro out calls h
    obtain ⟨pItems, pBases⟩ := pair
    simp only [goPages] at h
    cases himg : pyGet images ((pItems.page_number : Int) - 1) with
    | none => simp only [himg] at h; simp at h
    | some img =>
      simp only [himg] at h
      cases hva : exceptMap va pItems.categories with
      | error vv => simp only [hva] at h; simp at h
      | ok cats =>
        simp only [hva] at h
        cases hvb : exceptMap vb pBases.categories with
        | error vv => simp only [hvb] at h; simp at h
        | ok bases =>
          simp only [hvb] at h
          cases hexm : exceptMap
              (fun cb => e pItems.page_number img cb.1 cb.2)
              (cats.zip bases) with
          | error u => simp only [hexm] at h; simp at h
          | ok results =>
            simp only [hexm] at h
            rcases hrec : goPages images va vb e rest with ⟨r, calls'⟩
            simp only [hrec] at h
            cases r with
            | error e0 => simp at h
            | ok ps =>
              simp only [Prod.mk.injEq, Except.ok.injEq] at h
              obtain ⟨h1, h2⟩ := h
              subst h1
              obtain ⟨hnums, hall⟩ := ih hrec
              refine ⟨by simp [hnums], ?_⟩
              intro q hq
              rcases List.mem_cons.mp hq with hq | hq
              · subst hq
                refine ⟨img, himg, exceptMap_ok_mem hva,
                  exceptMap_ok_mem hvb, cats, bases, hva, hvb, ?_⟩
                intro u hu
                exact exceptMap_ok_mem hexm u hu
              · exact hall q hq

/-- Total-success instance of the Stage 4 page loop: one fan-out
invocation per zipped page pair, whose units are the positional zip of
the validated categories with the validated bases. -/
theorem goPages4_total {ι δa δb κa κb ω V U : Type} {images : List ι}
    (ga : δa → κa) (gb : δb → κb) (ge : Nat → κa → κb → ω) :
    ∀ {pairs : List (CatPage δa × CatPage δb)},
      (∀ q ∈ pairs, ∃ img,
        pyGet images ((q.1.page_number : Int) - 1) = some img) →
      @goPages ι δa δb κa κb ω V U images (fun c => .ok (ga c))
          (fun b => .ok (gb b)) (fun pn _ a b => .ok (ge pn a b)) pairs =
        (.ok (pairs.map fun q =>
            ⟨q.1.page_number,
             ((q.1.categories.map ga).zip (q.2.categories.map gb)).map
               fun u => ge q.1.page_number u.1 u.2⟩),
         pairs.map fun q =>
            (q.1.categories.map ga).zip (q.2.categories.map gb)) := by
  intro pairs
  induction pairs with
  | nil => intro _; simp [goPages]
  | cons pair rest ih =>
    intro himg
    obtain ⟨pItems, pBases⟩ := pair
    obtain ⟨img, himg0⟩ := himg (pItems, pBases) (by simp)
    have hva := exceptMap_total
      (f := fun c => (.ok (ga c) : Except V κa)) (g := ga)
      (fun c => rfl) pItems.categories
    have hvb := exceptMap_total
      (f := fun b => (.ok (gb b) : Except V κb)) (g := gb)
      (fun b => rfl) pBases.categories
    have hunits := exceptMap_total
      (f := fun cb : κa × κb =>
        (.ok (ge pItems.page_number cb.1 cb.2) : Except U ω))
      (g := fun cb => ge pItems.page_number cb.1 cb.2) (fun cb => rfl)
      ((pItems.categories.map ga).zip (pBases.categories.map gb))
    have hrec := ih (fun q hq => himg q (by simp [hq]))
    simp only [goPages, himg0, hva, hvb, hunits, hrec, List.map_cons]

end Phase4Extractor

/-! ## `extract_all_pages` inversions -/

theorem Phase1Extractor.extract_all_pages1_ok {ι γ U : Type} {r : String}
    {images : List ι} {e : Nat → ι → Except U γ} {doc : StageDoc (P1Page γ)}
    (h : Phase1Extractor.extract_all_pages r images e = .ok doc) :
    Phase1Extractor.pagesFrom e 1 images = .ok doc.pages ∧
    doc.restaurant_name = r := by
  simp only [Phase1Extractor.extract_all_pages] at h
  cases hp : Phase1Extractor.pagesFrom e 1 images with
  | error u => simp only [hp] at h; cases h
  | ok ps =>
    simp only [hp, Except.ok.injEq] at h
    subst h
    exact ⟨rfl, rfl⟩

theorem Phase2Extractor.extract_all_pages2_ok {ι δ κ ω V U : Type}
    {r : String} {images : List ι} {v : δ → Except V (List κ)}
    {e : Nat → ι → κ → Except U ω} {payload : StageDoc (P1Page δ)}
    {doc : StageDoc (CatPage ω)} {calls : List (List (Nat × Nat))}
    (h : Phase2Extractor.extract_all_pages r images v e payload =
      (.ok doc, calls)) :
    Phase2Extractor.goPages images v e payload.pages = (.ok doc.pages, calls) ∧
    doc.restaurant_name = r := by
  simp only [Phase2Extractor.extract_all_pages] at h
  rcases hg : Phase2Extractor.goPages images v e payload.pages with ⟨res, cs⟩
  rw [hg] at h
  cases res with
  | error e0 => simp at h
  | ok ps =>
    simp only [Prod.mk.injEq, Except.ok.injEq] at h
    obtain ⟨h1, h2⟩ := h
    subst h1
    subst h2
    exact ⟨rfl, rfl⟩

theorem Phase3Extractor.extract_all_pages3_ok {ι δ κ ω V U : Type}
    {r : String} {images : List ι} {v : δ → Except V κ}
    {e : Nat → ι → κ → Except U ω} {payload : StageDoc (CatPage δ)}
    {doc : StageDoc (CatPage ω)} {calls : List (List (Nat × Nat))}
    (h : Phase3Extractor.extract_all_pages r images v e payload =
      (.ok doc, calls)) :
    Phase3Extractor.goPages images v e payload.pages = (.ok doc.pages, calls) ∧
    doc.restaurant_name = r := by
  simp only [Phase3Extractor.extract_all_pages] at h
  rcases hg : Phase3Extractor.goPages images v e payload.pages with ⟨res, cs⟩
  rw [hg] at h
  cases res with
  | error e0 => simp at h
  | ok ps =>
    simp only [Prod.mk.injEq, Except.ok.injEq] at h
    obtain ⟨h1, h2⟩ := h
    subst h1
    subst h2
    exact ⟨rfl, rfl⟩

theorem Phase4Extractor.extract_all_pages4_ok {ι δa δb κa κb ω V U : Type}
    {r : String} {images : List ι} {va : δa → Except V κa}
    {vb : δb → Except V κb} {e : Nat → ι → κa → κb → Except U ω}
    {itemsP : StageDoc (CatPage δa)} {basesP : StageDoc (CatPage δb)}
    {doc : StageDoc (CatPage ω)} {calls : List (List (κa × κb))}
    (h : Phase4Extractor.extract_all_pages r images va vb e itemsP basesP =
      (.ok doc, calls)) :
    Phase4Extractor.goPages images va vb e
      (itemsP.pages.zip basesP.pages) = (.ok doc.pages, calls) ∧
    doc.restaurant_name = r := by
  simp only [Phase4Extractor.extract_all_pages] at h
  rcases hg : Phase4Extractor.goPages images va vb e
    (itemsP.pages.zip basesP.pages) with ⟨res, cs⟩
  rw [hg] at h
  cases res with
  | error e0 => simp at h
  | ok ps =>
    simp only [Prod.mk.injEq, Except.ok.injEq] at h
    obtain ⟨h1, h2⟩ := h
    subst h1
    subst h2
    exact ⟨rfl, rfl⟩

/-! ## `get_job` item counting (`src/backend/api/routes/jobs.py`) -/

namespace JobsRoute

/-- One entry of `cat["category_items"]` or `cat["subcategory_items"]`;
the counting loop only reads its `"items"` list. -/
structure ItemGroup (α : Type) where
  items : List α
deriving Repr, DecidableEq

/-- The slice of a category record read by `get_job`: the two parallel
item groupings. -/
structure JobCategory (α : Type) where
  category_items : List (ItemGroup α)
  subcategory_items : List (ItemGroup α)
deriving Repr, DecidableEq

/-- The slice of one entry of `restaurant.json["pages"]` read by
`get_job`. -/
structure JobPage (α : Type) where
  categories : List (JobCategory α)
deriving Repr, DecidableEq

/-- The inner loops of `get_job` for one category, continuing from
accumulator `acc`: add `len(g["items"])` over `category_items`, then over
`subcategory_items`. -/
def addCategoryItems {α : Type} (acc : Nat) (cat : JobCategory α) : Nat :=
  let acc1 := cat.category_items.foldl (fun a g => a + g.items.length) acc
  cat.subcategory_items.foldl (fun a g => a + g.items.length) acc1

/-- The counting loop of `get_job` over `restaurant.json["pages"]`:
returns `(category_count, item_count)`. -/
def get_job_counts {α : Type} (pages : List (JobPage α)) : Nat × Nat :=
  pages.foldl
    (fun acc page =>
      (acc.1 + page.categories.length,
       page.categories.foldl addCategoryItems acc.2))
    (0, 0)

/-- Declarative per-category item count: category-level items plus
subcategory-level items. -/
def categoryItemTotal {α : Type} (cat : JobCategory α) : Nat :=
  (cat.category_items.map fun g => g.items.length).sum +
    (cat.subcategory_items.map fun g => g.items.length).sum

theorem foldl_add_items {α : Type} :
    ∀ (l : List (ItemGroup α)) (acc : Nat),
      l.foldl (fun a g => a + g.items.length) acc =
        acc + (l.map fun g => g.items.length).sum := by
  intro l
  induction l with
  | nil => intro acc; simp
  | cons g rest ih =>
    intro acc
    simp only [List.foldl_cons, List.map_cons, List.sum_cons]
    rw [ih]
    omega

theorem addCategoryItems_eq {α : Type} (acc : Nat) (cat : JobCategory α) :
    addCategoryItems acc cat = acc + categoryItemTotal cat := by
  simp only [addCategoryItems, categoryItemTotal, foldl_add_items]
  omega

theorem foldl_addCategoryItems {α : Type} :
    ∀ (cats : List (JobCategory α)) (acc : Nat),
      cats.foldl addCategoryItems acc =
        acc + (cats.map categoryItemTotal).sum := by
  intro cats
  induction cats with
  | nil => intro acc; simp
  | cons c rest ih =>
    intro acc
    simp only [List.foldl_cons, List.map_cons, List.sum_cons]
    rw [addCategoryItems_eq, ih]
    omega

theorem get_job_counts_eq {α : Type} :
    ∀ (pages : List (JobPage α)),
      get_job_counts pages =
        ((pages.map fun p => p.categories.length).sum,
         (pages.map fun p => (p.categories.map categoryItemTotal).sum).sum) := by
  have haux : ∀ (pages : List (JobPage α)) (acc : Nat × Nat),
      pages.foldl
        (fun acc page =>
          (acc.1 + page.categories.length,
           page.categories.foldl addCategoryItems acc.2)) acc =
        (acc.1 + (pages.map fun p => p.categories.length).sum,
         acc.2 + (pages.map fun p =>
            (p.categories.map categoryItemTotal).sum).sum) := by
    intro pages
    induction pages with
    | nil => intro acc; simp
    | cons p rest ih =>
      intro acc
      simp only [List.foldl_cons, List.map_cons, List.sum_cons]
      rw [foldl_addCategoryItems, ih]
      simp only [Prod.mk.injEq]
      constructor <;> omega
  intro pages
  simp only [get_job_counts]
  rw [haux pages (0, 0)]
  simp

end JobsRoute

/-! ## Shared helpers for the claim theorems -/

/-- Dense 1-based page numbering over `n` entries: exactly `n` pages and
`page_number` at index `i` equal to `i + 1`. -/
def densePages {χ : Type} (num : χ → Nat) (pages : List χ) (n : Nat) : Prop :=
  pages.length = n ∧ ∀ i, i < n → (pages.map num).get? i = some (i + 1)

theorem densePages_of_map_range' {χ : Type} {num : χ → Nat} {pages : List χ}
    {n : Nat} (h : pages.map num = List.range' 1 n) :
    densePages num pages n := by
  constructor
  · have := congrArg List.length h
    simpa using this
  · intro i hi
    rw [h, range'_get? n 1 i hi, Nat.add_comm]

theorem map_get?_some {A B : Type} (f : A → B) :
    ∀ (l : List A) (j : Nat) (a : A),
      l.get? j = some a → (l.map f).get? j = some (f a) := by
  intro l
  induction l with
  | nil => intro j a ha; simp at ha
  | cons x xt ih =>
    intro j a ha
    cases j with
    | zero =>
      simp only [List.get?] at ha
      cases ha
      rfl
    | succ j' =>
      simp only [List.get?] at ha
      simp only [List.map_cons, List.get?]
      exact ih j' a ha

theorem zip_get? {A B : Type} :
    ∀ (xs : List A) (ys : List B) (j : Nat) (a : A) (b : B),
      xs.get? j = some a → ys.get? j = some b →
      (xs.zip ys).get? j = some (a, b) := by
  intro xs
  induction xs with
  | nil => intro ys j a b ha _; simp at ha
  | cons x xt ih =>
    intro ys j a b ha hb
    cases ys with
    | nil => simp at hb
    | cons y yt =>
      cases j with
      | zero =>
        simp only [List.get?] at ha hb
        cases ha
        cases hb
        rfl
      | succ j' =>
        simp only [List.get?] at ha hb
        have := ih yt j' a b ha hb
        simpa [List.zip_cons_cons] using this

/-! ## Claim theorems -/

/-- Claim C1: with an LLM capability stub whose response fails to parse on
every attempt, Stage 1 unit extraction fails after exactly 2 attempts,
Stage 2 after exactly 3, Stages 3 and 4 after exactly 2; each failure is
the error carrying the final attempt's parse diagnostic (never the
synthesized generic `allFailed` error). -/
theorem C1_retry_budgets_and_last_parse_error {ρ σ τ π ν ε : Type}
    (raw : Nat → ρ) (parse : ρ → Except π σ) (validate : σ → Except ν τ)
    (d : Nat → π) (hp : ∀ i, parse (raw i) = .error (d i)) :
    Phase1Extractor.extract_page (fun i => (.ok (raw i) : Except ε ρ))
        parse validate =
      ⟨.error (.invalidJson (d 1)), 2, [1]⟩ ∧
    Phase2Extractor.extract_category (fun i => (.ok (raw i) : Except ε ρ))
        parse validate =
      ⟨.error (.invalidJson (d 2)), 3, [1, 1]⟩ ∧
    Phase3Extractor.extract_category_base (fun i => (.ok (raw i) : Except ε ρ))
        parse validate =
      ⟨.error (.invalidJson (d 1)), 2, [1]⟩ ∧
    Phase4Extractor.extract_category_addons (fun i => (.ok (raw i) : Except ε ρ))
        parse validate =
      ⟨.error (.invalidJson (d 1)), 2, [1]⟩ := by
  have hstep : ∀ i,
      extractAttempt (fun i => (.ok (raw i) : Except ε ρ)) parse validate i =
        .error ((fun i => ExtractErr.invalidJson (d i)) i) := by
    intro i
    simp [extractAttempt, hp i]
  refine ⟨?_, ?_, ?_, ?_⟩
  · exact runRetry_all_fail _ _ _ hstep 2 0 (by omega)
  · exact runRetry_all_fail _ _ _ hstep 3 0 (by omega)
  · exact runRetry_all_fail _ _ _ hstep 2 0 (by omega)
  · exact runRetry_all_fail _ _ _ hstep 2 0 (by omega)

/-- Witness for C1 at a concrete always-invalid-JSON stub. -/
theorem C1_retry_budgets_and_last_parse_error_witness :
    Phase1Extractor.extract_page
        (fun _ => (.ok "not json" : Except String String))
        (fun _ => (.error "Expecting value: line 1" : Except String Unit))
        (fun _ => (.ok () : Except String Unit)) =
      ⟨.error (.invalidJson "Expecting value: line 1"), 2, [1]⟩ ∧
    Phase2Extractor.extract_category
        (fun _ => (.ok "not json" : Except String String))
        (fun _ => (.error "Expecting value: line 1" : Except String Unit))
        (fun _ => (.ok () : Except String Unit)) =
      ⟨.error (.invalidJson "Expecting value: line 1"), 3, [1, 1]⟩ ∧
    Phase3Extractor.extract_category_base
        (fun _ => (.ok "not json" : Except String String))
        (fun _ => (.error "Expecting value: line 1" : Except String Unit))
        (fun _ => (.ok () : Except String Unit)) =
      ⟨.error (.invalidJson "Expecting value: line 1"), 2, [1]⟩ ∧
    Phase4Extractor.extract_category_addons
        (fun _ => (.ok "not json" : Except String String))
        (fun _ => (.error "Expecting value: line 1" : Except String Unit))
        (fun _ => (.ok () : Except String Unit)) =
      ⟨.error (.invalidJson "Expecting value: line 1"), 2, [1]⟩ :=
  C1_retry_budgets_and_last_parse_error (fun _ => "not json")
    (fun _ => .error "Expecting value: line 1") (fun _ => .ok ())
    (fun _ => "Expecting value: line 1") (fun _ => rfl)

/-- Claim C2: a completed bounded fan-out over units `0, …, n-1` returns the
results in submission order — position `i` of the output is unit `i`'s
result — for every schedule of admissions and completions the semaphore
machine allows. -/
theorem C2_fanout_preserves_submission_order (β E : Type)
    (f : Nat → Except E β) (g : Nat → β) (n limit : Nat)
    (acts : List BGAction) (s : BGState β E)
    (hrun : bgRun f n limit bgInit acts = some s) (hc : bgComplete n s)
    (hok : ∀ i, i < n → f i = .ok (g i)) :
    bgResult n s = some (.ok ((List.range n).map g)) :=
  bgResult_ok_order hrun hc hok

/-- Witness for C2: units complete in reversed order 2, 1, 0, yet the
gathered results come back in submission order. -/
theorem C2_fanout_preserves_submission_order_witness :
    bgResult 3
      (⟨[], [(2, .ok 12), (1, .ok 11), (0, .ok 10)]⟩ : BGState Nat String) =
      some (.ok [10, 11, 12]) :=
  C2_fanout_preserves_submission_order Nat String
    (fun i => .ok (10 + i)) (fun i => 10 + i) 3 4
    [.start 0, .start 1, .start 2, .finish 2, .finish 1, .finish 0]
    ⟨[], [(2, .ok 12), (1, .ok 11), (0, .ok 10)]⟩
    rfl ⟨rfl, rfl⟩ (fun _ _ => rfl)

/-- Claim C8: a schema-validation failure goes through exactly the same
bounded retry loop as a JSON parse failure: the attempt count and the
back-off trace depend only on which attempts fail, not on whether the
failure was a parse or a validation error; every retry sleeps the same
fixed 1-second delay; and the error surfaced after the final attempt is
that attempt's own error. -/
theorem C8_validation_failure_same_retry_path {ρ σ τ π ν ε : Type}
    (n : Nat) (hn : 1 ≤ n) (llm : Nat → Except ε ρ)
    (parse parse' : ρ → Except π σ) (validate validate' : σ → Except ν τ)
    (hpat : ∀ i, (extractAttempt llm parse validate i).isOk =
      (extractAttempt llm parse' validate' i).isOk) :
    ((runRetry .allFailed (extractAttempt llm parse validate) n).attempts =
        (runRetry .allFailed (extractAttempt llm parse' validate') n).attempts ∧
      (runRetry .allFailed (extractAttempt llm parse validate) n).sleeps =
        (runRetry .allFailed (extractAttempt llm parse' validate') n).sleeps) ∧
    (∀ e, (runRetry .allFailed (extractAttempt llm parse validate) n).result =
        .error e →
      extractAttempt llm parse validate (n - 1) = .error e) ∧
    (runRetry .allFailed (extractAttempt llm parse validate) n).sleeps =
      List.replicate
        ((runRetry .allFailed (extractAttempt llm parse validate) n).attempts - 1)
        1 := by
  refine ⟨⟨(runRetry_pattern _ _ _ _ hpat n 0).1,
    (runRetry_pattern _ _ _ _ hpat n 0).2⟩, ?_, runRetry_sleeps_fixed _ _ n 0⟩
  intro e he
  have := runRetry_error_is_last _ _ n 0 e hn he
  simpa using this

/-- Witness for C8: a stub whose every attempt fails validation, against a
stub whose every attempt fails parsing — same attempt count (2), same
sleep trace, and the final validation error is re-raised. -/
theorem C8_validation_failure_same_retry_path_witness :
    ((runRetry .allFailed
        (extractAttempt (fun _ => (.ok "x" : Except String String))
          (fun _ => (.ok 0 : Except String Nat))
          (fun _ => (.error "3 validation errors" : Except String Unit))) 2).attempts =
      (runRetry .allFailed
        (extractAttempt (fun _ => (.ok "x" : Except String String))
          (fun _ => (.error "Expecting value" : Except String Nat))
          (fun _ => (.ok () : Except String Unit))) 2).attempts ∧
     (runRetry .allFailed
        (extractAttempt (fun _ => (.ok "x" : Except String String))
          (fun _ => (.ok 0 : Except String Nat))
          (fun _ => (.error "3 validation errors" : Except String Unit))) 2).sleeps =
      (runRetry .allFailed
        (extractAttempt (fun _ => (.ok "x" : Except String String))
          (fun _ => (.error "Expecting value" : Except String Nat))
          (fun _ => (.ok () : Except String Unit))) 2).sleeps) ∧
    (∀ e, (runRetry .allFailed
        (extractAttempt (fun _ => (.ok "x" : Except String String))
          (fun _ => (.ok 0 : Except String Nat))
          (fun _ => (.error "3 validation errors" : Except String Unit))) 2).result =
        .error e →
      extractAttempt (fun _ => (.ok "x" : Except String String))
        (fun _ => (.ok 0 : Except String Nat))
        (fun _ => (.error "3 validation errors" : Except String Unit)) (2 - 1) =
        .error e) ∧
    (runRetry .allFailed
        (extractAttempt (fun _ => (.ok "x" : Except String String))
          (fun _ => (.ok 0 : Except String Nat))
          (fun _ => (.error "3 validation errors" : Except String Unit))) 2).sleeps =
      List.replicate
        ((runRetry .allFailed
          (extractAttempt (fun _ => (.ok "x" : Except String String))
            (fun _ => (.ok 0 : Except String Nat))
            (fun _ => (.error "3 validation errors" : Except String Unit))) 2).attempts - 1)
        1 :=
  C8_validation_failure_same_retry_path 2 (by omega)
    (fun _ => .ok "x") (fun _ => .ok 0) (fun _ => .error "Expecting value")
    (fun _ => .error "3 validation errors") (fun _ => .ok ())
    (fun _ => rfl)

/-- Claim C9: the item count computed by `get_job` sums both groupings: a
category's contribution is the number of items in all its category-level
item groups plus the number in all its subcategory-level item groups, and
the job-level `item_count` is the sum of these contributions over all
categories of all pages. -/
theorem C9_item_count_sums_both_groupings (α : Type)
    (cat : JobsRoute.JobCategory α) (acc : Nat)
    (pages : List (JobsRoute.JobPage α)) :
    JobsRoute.addCategoryItems acc cat =
      acc + ((cat.category_items.map fun g => g.items.length).sum +
        (cat.subcategory_items.map fun g => g.items.length).sum) ∧
    (JobsRoute.get_job_counts pages).2 =
      (pages.map fun p =>
        (p.categories.map JobsRoute.categoryItemTotal).sum).sum := by
  constructor
  · rw [JobsRoute.addCategoryItems_eq]
    rfl
  · rw [JobsRoute.get_job_counts_eq]

/-- Claim C4: an unrecoverably failed unit fails its whole stage run: a
completed bounded fan-out containing a failed unit surfaces a failed
unit's error and never returns a truncated result list — completed
sibling results are discarded — and a Stage 2 driver that returned a
document necessarily had every unit of every page succeed (no failed page or
category is silently skipped). -/
theorem C4_unit_failure_fails_stage (β E : Type) (f : Nat → Except E β)
    (n limit : Nat) (acts : List BGAction) (s : BGState β E)
    (hrun : bgRun f n limit bgInit acts = some s) (hc : bgComplete n s)
    (i : Nat) (hi : i < n) (e : E) (hf : f i = .error e) :
    (∃ j ej, j < n ∧ f j = .error ej ∧ bgResult n s = some (.error ej)) ∧
    (∀ (ι δ κ ω V U : Type) (images : List ι) (v : δ → Except V (List κ))
       (ex : Nat → ι → κ → Except U ω) (pages : List (P1Page δ))
       (out : List (CatPage ω)) (calls : List (List (Nat × Nat))),
       Phase2Extractor.goPages images v ex pages = (.ok out, calls) →
       ∀ page ∈ pages, ∃ img,
         pyGet images ((page.page_number : Int) - 1) = some img ∧
         ∃ cats, v page.data = .ok cats ∧
           ∀ c ∈ cats, ∃ w, ex page.page_number img c = .ok w) := by
  refine ⟨bgResult_failfast hrun hc hi hf, ?_⟩
  intro ι δ κ ω V U images v ex pages out calls h
  exact (Phase2Extractor.goPages2_ok_spec h).2

/-- Witness for C4: unit 1 of a 2-unit fan-out fails; the completed run
surfaces a failing unit's error instead of a result list. -/
theorem C4_unit_failure_fails_stage_witness :
    ∃ j ej, j < 2 ∧
      (fun i => if i = 0 then (.ok 5 : Except String Nat)
        else .error "boom") j = .error ej ∧
      bgResult 2
        (⟨[], [(0, .ok 5), (1, .error "boom")]⟩ : BGState Nat String) =
        some (.error ej) :=
  (C4_unit_failure_fails_stage Nat String
    (fun i => if i = 0 then .ok 5 else .error "boom") 2 4
    [.start 0, .start 1, .finish 0, .finish 1]
    ⟨[], [(0, .ok 5), (1, .error "boom")]⟩
    rfl ⟨rfl, rfl⟩ 1 (by omega) "boom" rfl).1

/-- Claim C7: each of Stages 2-4 structurally re-validates its input before
building units — Stage 2 validates each page's `data` against
`Categories`, Stage 3 each category against `CategoryWithItems`, Stage 4
each category against `CategoryWithItems` and each base against
`CategoryBase` — so a stage can only return a document if every such
validation succeeded; a validation failure fails the stage instead. -/
theorem C7_stages_revalidate_inputs
    (ι V U δ κ ω δ3 κ3 ω3 δa δb κa κb ω4 : Type)
    (images : List ι) (r : String)
    (v2 : δ → Except V (List κ)) (e2 : Nat → ι → κ → Except U ω)
    (v3 : δ3 → Except V κ3) (e3 : Nat → ι → κ3 → Except U ω3)
    (va : δa → Except V κa) (vb : δb → Except V κb)
    (e4 : Nat → ι → κa → κb → Except U ω4) :
    (∀ (payload : StageDoc (P1Page δ)) (doc : StageDoc (CatPage ω))
       (calls : List (List (Nat × Nat))),
       Phase2Extractor.extract_all_pages r images v2 e2 payload =
         (.ok doc, calls) →
       ∀ page ∈ payload.pages, ∃ cats, v2 page.data = .ok cats) ∧
    (∀ (payload : StageDoc (CatPage δ3)) (doc : StageDoc (CatPage ω3))
       (calls : List (List (Nat × Nat))),
       Phase3Extractor.extract_all_pages r images v3 e3 payload =
         (.ok doc, calls) →
       ∀ page ∈ payload.pages, ∀ c ∈ page.categories,
         ∃ w, v3 c = .ok w) ∧
    (∀ (itemsP : StageDoc (CatPage δa)) (basesP : StageDoc (CatPage δb))
       (doc : StageDoc (CatPage ω4)) (calls : List (List (κa × κb))),
       Phase4Extractor.extract_all_pages r images va vb e4 itemsP basesP =
         (.ok doc, calls) →
       ∀ q ∈ itemsP.pages.zip basesP.pages,
         (∀ c ∈ q.1.categories, ∃ w, va c = .ok w) ∧
         (∀ b ∈ q.2.categories, ∃ w, vb b = .ok w)) := by
  refine ⟨?_, ?_, ?_⟩
  · intro payload doc calls h page hp
    obtain ⟨hg, _⟩ := Phase2Extractor.extract_all_pages2_ok h
    obtain ⟨img, _, cats, hv, _⟩ := (Phase2Extractor.goPages2_ok_spec hg).2 page hp
    exact ⟨cats, hv⟩
  · intro payload doc calls h page hp c hc
    obtain ⟨hg, _⟩ := Phase3Extractor.extract_all_pages3_ok h
    obtain ⟨img, _, hcats, _⟩ := (Phase3Extractor.goPages3_ok_spec hg).2 page hp
    exact hcats c hc
  · intro itemsP basesP doc calls h q hq
    obtain ⟨hg, _⟩ := Phase4Extractor.extract_all_pages4_ok h
    obtain ⟨img, _, hca, hcb, _⟩ := (Phase4Extractor.goPages4_ok_spec hg).2 q hq
    exact ⟨hca, hcb⟩

/-- Witness for C7: concrete single-page runs of Stages 2, 3 and 4 whose
success certifies that the input validators were consulted and succeeded. -/
theorem C7_stages_revalidate_inputs_witness :
    (∃ cats, (fun d => (.ok [d] : Except Unit (List Nat))) 5 = .ok cats) ∧
    (∃ w, (fun c => (.ok (c + 1) : Except Unit Nat)) 5 = .ok w) ∧
    ((∀ c ∈ [5], ∃ w, (fun c => (.ok (c + 1) : Except Unit Nat)) c = .ok w) ∧
     (∀ b ∈ [6], ∃ w, (fun b => (.ok (b + 2) : Except Unit Nat)) b = .ok w)) := by
  have h := C7_stages_revalidate_inputs Nat Unit Unit Nat Nat Nat Nat Nat Nat
    Nat Nat Nat Nat Nat [0] "R"
    (fun d => .ok [d]) (fun _ _ c => .ok c)
    (fun c => .ok (c + 1)) (fun _ _ c => .ok c)
    (fun c => .ok (c + 1)) (fun b => .ok (b + 2)) (fun _ _ a b => .ok (a + b))
  refine ⟨?_, ?_, ?_⟩
  · exact h.1 ⟨"R", [⟨1, 5⟩]⟩ ⟨"R", [⟨1, [5]⟩]⟩ [[(1, 0)]] rfl ⟨1, 5⟩
      (by simp)
  · exact h.2.1 ⟨"R", [⟨1, [5]⟩]⟩ ⟨"R", [⟨1, [6]⟩]⟩ [[(1, 0)]] rfl ⟨1, [5]⟩
      (by simp) 5 (by simp)
  · exact h.2.2 ⟨"R", [⟨1, [5]⟩]⟩ ⟨"R", [⟨1, [6]⟩]⟩ ⟨"R", [⟨1, [14]⟩]⟩
      [[(6, 8)]] rfl (⟨1, [5]⟩, ⟨1, [6]⟩) (by simp)

/-- Claim C5: for a job whose PDF rasterizes to `N` pages, the output
documents of Stages 1-4 each contain exactly `N` page entries, and the
`page_number` at index `i` equals `i + 1` in every stage's document. -/
theorem C5_dense_page_numbering
    (ι γ U V κ ω κ3 ω3 κa κb ω4 : Type) (r : String) (images : List ι)
    (N : Nat) (hN : images.length = N)
    (e1 : Nat → ι → Except U γ) (d1 : StageDoc (P1Page γ))
    (h1 : Phase1Extractor.extract_all_pages r images e1 = .ok d1)
    (v2 : γ → Except V (List κ)) (e2 : Nat → ι → κ → Except U ω)
    (d2 : StageDoc (CatPage ω)) (c2 : List (List (Nat × Nat)))
    (h2 : Phase2Extractor.extract_all_pages r images v2 e2 d1 = (.ok d2, c2))
    (v3 : ω → Except V κ3) (e3 : Nat → ι → κ3 → Except U ω3)
    (d3 : StageDoc (CatPage ω3)) (c3 : List (List (Nat × Nat)))
    (h3 : Phase3Extractor.extract_all_pages r images v3 e3 d2 = (.ok d3, c3))
    (va : ω → Except V κa) (vb : ω3 → Except V κb)
    (e4 : Nat → ι → κa → κb → Except U ω4)
    (d4 : StageDoc (CatPage ω4)) (c4 : List (List (κa × κb)))
    (h4 : Phase4Extractor.extract_all_pages r images va vb e4 d2 d3 =
      (.ok d4, c4)) :
    densePages (fun p => p.page_number) d1.pages N ∧
    densePages (fun p => p.page_number) d2.pages N ∧
    densePages (fun p => p.page_number) d3.pages N ∧
    densePages (fun p => p.page_number) d4.pages N := by
  obtain ⟨hp1, _⟩ := Phase1Extractor.extract_all_pages1_ok h1
  have hn1 : d1.pages.map (fun p => p.page_number) = List.range' 1 N := by
    rw [Phase1Extractor.pagesFrom_ok_pageNums hp1, hN]
  obtain ⟨hg2, _⟩ := Phase2Extractor.extract_all_pages2_ok h2
  have hn2 : d2.pages.map (fun p => p.page_number) = List.range' 1 N := by
    rw [(Phase2Extractor.goPages2_ok_spec hg2).1, hn1]
  obtain ⟨hg3, _⟩ := Phase3Extractor.extract_all_pages3_ok h3
  have hn3 : d3.pages.map (fun p => p.page_number) = List.range' 1 N := by
    rw [(Phase3Extractor.goPages3_ok_spec hg3).1, hn2]
  obtain ⟨hg4, _⟩ := Phase4Extractor.extract_all_pages4_ok h4
  have hl2 : d2.pages.length = N := by
    have := congrArg List.length hn2
    simpa using this
  have hl3 : d3.pages.length = N := by
    have := congrArg List.length hn3
    simpa using this
  have hn4 : d4.pages.map (fun p => p.page_number) = List.range' 1 N := by
    rw [(Phase4Extractor.goPages4_ok_spec hg4).1]
    have hcomp : (d2.pages.zip d3.pages).map (fun q => q.1.page_number) =
        ((d2.pages.zip d3.pages).map Prod.fst).map (fun p => p.page_number) := by
      rw [List.map_map]
      rfl
    rw [hcomp, List.map_fst_zip _ _ (by omega), hn2]
  exact ⟨densePages_of_map_range' hn1, densePages_of_map_range' hn2,
    densePages_of_map_range' hn3, densePages_of_map_range' hn4⟩

/-- Witness for C5: a concrete two-page job run through all four stages;
every stage document has 2 pages numbered 1, 2. -/
theorem C5_dense_page_numbering_witness :
    densePages (fun p => p.page_number)
      ([⟨1, 1⟩, ⟨2, 2⟩] : List (P1Page Nat)) 2 ∧
    densePages (fun p => p.page_number)
      ([⟨1, [1]⟩, ⟨2, [2]⟩] : List (CatPage Nat)) 2 ∧
    densePages (fun p => p.page_number)
      ([⟨1, [1]⟩, ⟨2, [2]⟩] : List (CatPage Nat)) 2 ∧
    densePages (fun p => p.page_number)
      ([⟨1, [2]⟩, ⟨2, [4]⟩] : List (CatPage Nat)) 2 :=
  C5_dense_page_numbering Nat Nat Unit Unit Nat Nat Nat Nat Nat Nat Nat "R"
    [0, 0] 2 rfl
    (fun pn _ => .ok pn) ⟨"R", [⟨1, 1⟩, ⟨2, 2⟩]⟩ rfl
    (fun d => .ok [d]) (fun _ _ c => .ok c)
    ⟨"R", [⟨1, [1]⟩, ⟨2, [2]⟩]⟩ [[(1, 0)], [(2, 0)]] rfl
    (fun c => .ok c) (fun _ _ c => .ok c)
    ⟨"R", [⟨1, [1]⟩, ⟨2, [2]⟩]⟩ [[(1, 0)], [(2, 0)]] rfl
    (fun a => .ok a) (fun b => .ok b) (fun _ _ a b => .ok (a + b))
    ⟨"R", [⟨1, [2]⟩, ⟨2, [4]⟩]⟩ [[(1, 1)], [(2, 2)]] rfl

/-- Claim C6: Stage 4 forms its units by positional pairing: the two input
documents' pages are zipped positionally, and within each page pair unit
`j` combines the validated category at index `j` of the Stage 2 page with
the validated base at index `j` of the Stage 3 page — by index, not by
any matching field. -/
theorem C6_stage4_positional_pairing
    (ι δa δb κa κb ω V U : Type) (r : String) (images : List ι)
    (ga : δa → κa) (gb : δb → κb) (ge : Nat → κa → κb → ω)
    (itemsP : StageDoc (CatPage δa)) (basesP : StageDoc (CatPage δb))
    (himg : ∀ q ∈ itemsP.pages.zip basesP.pages, ∃ img,
      pyGet images ((q.1.page_number : Int) - 1) = some img) :
    @Phase4Extractor.extract_all_pages ι δa δb κa κb ω V U r images
        (fun c => .ok (ga c)) (fun b => .ok (gb b))
        (fun pn _ a b => .ok (ge pn a b)) itemsP basesP =
      (.ok ⟨r, (itemsP.pages.zip basesP.pages).map fun q =>
          ⟨q.1.page_number,
           ((q.1.categories.map ga).zip (q.2.categories.map gb)).map
             fun u => ge q.1.page_number u.1 u.2⟩⟩,
       (itemsP.pages.zip basesP.pages).map fun q =>
          (q.1.categories.map ga).zip (q.2.categories.map gb)) ∧
    (∀ (xs : List δa) (ys : List δb) (j : Nat) (a : δa) (b : δb),
       xs.get? j = some a → ys.get? j = some b →
       ((xs.map ga).zip (ys.map gb)).get? j = some (ga a, gb b)) := by
  constructor
  · simp only [Phase4Extractor.extract_all_pages,
      Phase4Extractor.goPages4_total ga gb ge himg]
  · intro xs ys j a b ha hb
    exact zip_get? _ _ j _ _ (map_get?_some ga xs j a ha)
      (map_get?_some gb ys j b hb)

/-- Witness for C6: one page with 2 categories zipped against 1 base —
the single unit pairs index 0 with index 0. -/
theorem C6_stage4_positional_pairing_witness :
    @Phase4Extractor.extract_all_pages Nat Nat Nat Nat Nat Nat Unit Unit "R"
        [0] (fun c => .ok c) (fun b => .ok b) (fun _ _ a b => .ok (a + b))
        ⟨"R", [⟨1, [10, 20]⟩]⟩ ⟨"R", [⟨1, [7]⟩]⟩ =
      (.ok ⟨"R", [⟨1, [17]⟩]⟩, [[(10, 7)]]) :=
  (C6_stage4_positional_pairing Nat Nat Nat Nat Nat Nat Unit Unit "R" [0]
    (fun c => c) (fun b => b) (fun _ a b => a + b)
    ⟨"R", [⟨1, [10, 20]⟩]⟩ ⟨"R", [⟨1, [7]⟩]⟩
    (by
      rintro q hq
      simp at hq
      subst hq
      exact ⟨0, rfl⟩)).1

/-- Claim C10: when the Stage 2 categories list and the Stage 3 bases list
differ in length — per page, or in page count across the two documents —
Stage 4 raises no error: it processes exactly the first `min` positional
pairs at each level and silently drops the excess, both for trailing
pages and for trailing categories. -/
theorem C10_length_mismatch_silently_truncates
    (ι δa δb κa κb ω V U : Type) (r : String) (images : List ι)
    (ga : δa → κa) (gb : δb → κb) (ge : Nat → κa → κb → ω)
    (itemsP : StageDoc (CatPage δa)) (basesP : StageDoc (CatPage δb))
    (himg : ∀ q ∈ itemsP.pages.zip basesP.pages, ∃ img,
      pyGet images ((q.1.page_number : Int) - 1) = some img) :
    (@Phase4Extractor.extract_all_pages ι δa δb κa κb ω V U r images
        (fun c => .ok (ga c)) (fun b => .ok (gb b))
        (fun pn _ a b => .ok (ge pn a b)) itemsP basesP).1 =
      .ok ⟨r, (itemsP.pages.zip basesP.pages).map fun q =>
          ⟨q.1.page_number,
           ((q.1.categories.map ga).zip (q.2.categories.map gb)).map
             fun u => ge q.1.page_number u.1 u.2⟩⟩ ∧
    ((itemsP.pages.zip basesP.pages).map fun q =>
        ((⟨q.1.page_number,
          ((q.1.categories.map ga).zip (q.2.categories.map gb)).map
            fun u => ge q.1.page_number u.1 u.2⟩ : CatPage ω))).length =
      min itemsP.pages.length basesP.pages.length ∧
    ∀ q ∈ itemsP.pages.zip basesP.pages,
      (((q.1.categories.map ga).zip (q.2.categories.map gb)).map
        fun u => ge q.1.page_number u.1 u.2).length =
      min q.1.categories.length q.2.categories.length := by
  have htot := @Phase4Extractor.goPages4_total ι δa δb κa κb ω V U images
    ga gb ge (itemsP.pages.zip basesP.pages) himg
  refine ⟨?_, ?_, ?_⟩
  · simp [Phase4Extractor.extract_all_pages, htot]
  · simp [List.length_map, List.length_zip]
  · intro q hq
    simp [List.length_map, List.length_zip]

/-- Witness for C10: a 2-page items document against a 1-page bases
document, with 3 categories against 2 bases on the surviving page: the
run succeeds and truncates to 1 page with 2 category entries. -/
theorem C10_length_mismatch_silently_truncates_witness :
    (@Phase4Extractor.extract_all_pages Nat Nat Nat Nat Nat Nat Unit Unit
        "R" [0] (fun c => .ok c) (fun b => .ok b)
        (fun _ _ a b => .ok (a + b))
        ⟨"R", [⟨1, [10, 20, 30]⟩, ⟨2, [40]⟩]⟩ ⟨"R", [⟨1, [7, 8]⟩]⟩).1 =
      .ok ⟨"R", [⟨1, [17, 28]⟩]⟩ ∧
    ([⟨1, [17, 28]⟩] : List (CatPage Nat)).length = min 2 1 ∧
    (∀ q ∈ ([(⟨1, [10, 20, 30]⟩, ⟨1, [7, 8]⟩)] :
        List (CatPage Nat × CatPage Nat)),
      (((q.1.categories.map fun c => c).zip
          (q.2.categories.map fun b => b)).map
        fun u => u.1 + u.2).length =
      min q.1.categories.length q.2.categories.length) :=
  C10_length_mismatch_silently_truncates Nat Nat Nat Nat Nat Nat Unit Unit
    "R" [0] (fun c => c) (fun b => b) (fun _ a b => a + b)
    ⟨"R", [⟨1, [10, 20, 30]⟩, ⟨2, [40]⟩]⟩ ⟨"R", [⟨1, [7, 8]⟩]⟩
    (by
      rintro q hq
      simp at hq
      subst hq
      exact ⟨0, rfl⟩)

/-- Claim C3, counterexample: a Stage 2 run over a two-page document performs
two bounded fan-out invocations — one per page, each covering only that
page's `(page, category)` units — not a single per-stage invocation
covering all units. -/
theorem C3_single_stage_fanout_counterexample :
    (@Phase2Extractor.extract_all_pages Nat Nat Nat Nat Unit Unit "R"
        [0, 0] (fun d => .ok [d]) (fun _ _ c => .ok c)
        ⟨"R", [⟨1, 5⟩, ⟨2, 7⟩]⟩).2 = [[(1, 0)], [(2, 0)]] ∧
    ¬ ((@Phase2Extractor.extract_all_pages Nat Nat Nat Nat Unit Unit "R"
        [0, 0] (fun d => .ok [d]) (fun _ _ c => .ok c)
        ⟨"R", [⟨1, 5⟩, ⟨2, 7⟩]⟩).2.length = 1) := by
  constructor
  · rfl
  · decide

/-- Claim C3, amended: in Stages 2-4 the units are not all launched under
a single per-stage fan-out; pages are processed sequentially and each
page's units are launched under their own bounded fan-out invocation,
covering exactly that page's units (Stage 4's being the positional
category/base pairs). Within any invocation at most `concurrency_limit`
units are admitted simultaneously, and the limit is the process-wide
`Settings.MAX_CONCURRENCY = 4` by default, applied uniformly to every
invocation. -/
theorem C3_per_page_fanout_amended
    (ι V U δ κ ω δ3 κ3 ω3 δa δb κa κb ω4 : Type) (images : List ι)
    (gv : δ → List κ) (ge2 : Nat → κ → ω)
    (gv3 : δ3 → κ3) (ge3 : Nat → κ3 → ω3)
    (ga : δa → κa) (gb : δb → κb) (ge4 : Nat → κa → κb → ω4)
    (pages2 : List (P1Page δ)) (pages3 : List (CatPage δ3))
    (pairs4 : List (CatPage δa × CatPage δb))
    (h2 : ∀ page ∈ pages2, ∃ img,
      pyGet images ((page.page_number : Int) - 1) = some img)
    (h3 : ∀ page ∈ pages3, ∃ img,
      pyGet images ((page.page_number : Int) - 1) = some img)
    (h4 : ∀ q ∈ pairs4, ∃ img,
      pyGet images ((q.1.page_number : Int) - 1) = some img) :
    (@Phase2Extractor.goPages ι δ κ ω V U images (fun d => .ok (gv d))
        (fun pn _ c => .ok (ge2 pn c)) pages2).2 =
      pages2.map (fun p =>
        (List.range (gv p.data).length).map fun j => (p.page_number, j)) ∧
    (@Phase3Extractor.goPages ι δ3 κ3 ω3 V U images (fun c => .ok (gv3 c))
        (fun pn _ c => .ok (ge3 pn c)) pages3).2 =
      pages3.map (fun p =>
        (List.range p.categories.length).map fun j => (p.page_number, j)) ∧
    (@Phase4Extractor.goPages ι δa δb κa κb ω4 V U images
        (fun c => .ok (ga c)) (fun b => .ok (gb b))
        (fun pn _ a b => .ok (ge4 pn a b)) pairs4).2 =
      pairs4.map (fun q =>
        (q.1.categories.map ga).zip (q.2.categories.map gb)) ∧
    (∀ (β E : Type) (f : Nat → Except E β) (n limit : Nat)
       (acts : List BGAction) (s : BGState β E),
       bgRun f n limit bgInit acts = some s → s.running.length ≤ limit) ∧
    (effectiveMaxConcurrency none = Settings.MAX_CONCURRENCY ∧
      Settings.MAX_CONCURRENCY = 4) := by
  refine ⟨?_, ?_, ?_, ?_, rfl, rfl⟩
  · rw [Phase2Extractor.goPages2_total gv ge2 h2]
  · rw [Phase3Extractor.goPages3_total gv3 ge3 h3]
  · rw [Phase4Extractor.goPages4_total ga gb ge4 h4]
  · intro β E f n limit acts s hr
    exact bgRun_bound (by simp [bgInit]) hr

/-- Witness for C3 (amended): concrete one-page runs of the three stage
loops, each performing exactly one fan-out invocation for its one page. -/
theorem C3_per_page_fanout_amended_witness :
    (@Phase2Extractor.goPages Nat Nat Nat Nat Unit Unit [0]
        (fun d => .ok [d]) (fun pn _ c => .ok (pn + c)) [⟨1, 5⟩]).2 =
      [[(1, 0)]] :=
  (C3_per_page_fanout_amended Nat Unit Unit Nat Nat Nat Nat Nat Nat Nat Nat
    Nat Nat Nat [0]
    (fun d => [d]) (fun pn c => pn + c)
    (fun c => c + 1) (fun pn c => pn + c)
    (fun a => a) (fun b => b) (fun pn a b => pn + a + b)
    [⟨1, 5⟩] [⟨1, [5]⟩] [(⟨1, [5]⟩, ⟨1, [6]⟩)]
    (by
      rintro page hp
      simp at hp
      subst hp
      exact ⟨0, rfl⟩)
    (by
      rintro page hp
      simp at hp
      subst hp
      exact ⟨0, rfl⟩)
    (by
      rintro q hq
      simp at hq
      subst hq
      exact ⟨0, rfl⟩)).1

end MenuPipeline
